import Mathlib

/-!
Shallow embedding of `video-processing/main.py`.

The program is sequential glue around an external media toolchain.  The pure
parts (timestamp parsing, the seconds/`MM:SS` conversions, the validator loop)
are embedded directly.  Strings are Lean `String`s; character-level work is
done on `String.data` (a `List Char`).  Python's `int`, `str.strip`,
`str.split` and the `{:02d}` format are modelled by `pyInt`, `pyStrip`,
`pySplit` and `pyFmt02d`.  The video duration (a Python float obtained from
the toolchain probe) is modelled as an exact rational `ℚ`; all durations and
comparisons appearing in the claims are exactly representable, so no float
rounding is lost.  The filesystem effects of the extractor are embedded as an
explicit per-iteration state (`ClipFS`) transformed under an oracle
(`ClipEnv`) describing the outcomes of the external toolchain calls.
-/

/-- Numeric value of an ASCII digit character (`c.toNat - 48`). -/
def digitVal (c : Char) : Nat := c.toNat - 48

/-- Whether `c` is an ASCII digit `0`–`9`, as consumed by Python `int`. -/
def isDigitChar (c : Char) : Bool := decide (48 ≤ c.toNat) && decide (c.toNat ≤ 57)

/-- Whitespace stripped by Python `str.strip` (ASCII subset: space, tab,
newline, carriage return, vertical tab, form feed). -/
def isPySpace (c : Char) : Bool :=
  c == ' ' || c == '\t' || c == '\n' || c == '\r' || c == '\x0b' || c == '\x0c'

/-- Model of Python `str.strip`: drop leading and trailing whitespace. -/
def pyStrip (l : List Char) : List Char :=
  ((l.dropWhile isPySpace).reverse.dropWhile isPySpace).reverse

/-- One step of decimal accumulation: `a * 10 + digitVal c`. -/
def pyStep (a : Nat) (c : Char) : Nat := a * 10 + digitVal c

/-- Digit-run parser for Python `int` literals after the first digit: ASCII
digits, with a single underscore allowed between two digits. -/
def pyDigitsAux : Nat → List Char → Option Nat
  | acc, [] => some acc
  | acc, c :: rest =>
    if isDigitChar c then pyDigitsAux (pyStep acc c) rest
    else if c = '_' then
      match rest with
      | [] => none
      | c2 :: rest2 =>
        if isDigitChar c2 then pyDigitsAux (pyStep acc c2) rest2 else none
    else none

/-- Parse a nonempty digit run (the first character must be a digit). -/
def pyParseDigits : List Char → Option Nat
  | [] => none
  | c :: rest => if isDigitChar c then pyDigitsAux (digitVal c) rest else none

/-- Model of Python `int(s)` on a decimal string: strip whitespace, then an
optional sign followed by a digit run.  `none` models `int` raising
`ValueError`. -/
def pyInt (l : List Char) : Option Int :=
  match pyStrip l with
  | [] => none
  | c :: rest =>
    if c = '-' then (pyParseDigits rest).map (fun n => -(Int.ofNat n))
    else if c = '+' then (pyParseDigits rest).map (fun n => Int.ofNat n)
    else (pyParseDigits (c :: rest)).map (fun n => Int.ofNat n)

/-- Model of Python `str.split(sep)` with an explicit one-character separator:
splits at every occurrence and keeps empty pieces (`"".split(sep) == [""]`). -/
def pySplit (sep : Char) : List Char → List (List Char)
  | [] => [[]]
  | c :: rest =>
    if c = sep then [] :: pySplit sep rest
    else
      match pySplit sep rest with
      | [] => [[c]]
      | p :: ps => (c :: p) :: ps

/-- Model of Python `list(map(int, parts))`: the whole list fails if any
component fails to parse (the `ValueError` propagates). -/
def pyMapInt : List (List Char) → Option (List Int)
  | [] => some []
  | p :: ps =>
    match pyInt p, pyMapInt ps with
    | some v, some vs => some (v :: vs)
    | _, _ => none

/-- Embedding of `time_to_seconds` (main.py lines 28–42): split the timestamp
on `:`; two components give `MM:SS` (`minutes*60 + seconds`), three give
`HH:MM:SS` (`hours*3600 + minutes*60 + seconds`); any parse failure or other
component count yields `none` (the function prints and returns `None`, or
falls through returning `None` implicitly). -/
def time_to_seconds (timestamp : String) : Option Int :=
  match pyMapInt (pySplit ':' timestamp.data) with
  | some [minutes, seconds] => some (minutes * 60 + seconds)
  | some [hours, minutes, seconds] => some (hours * 3600 + minutes * 60 + seconds)
  | _ => none

/-- Decimal digits with an explicit recursion budget (`n / 10` is smaller
than `n`, so any `fuel > n` is enough); structural recursion on the fuel
keeps the function reducible by the kernel. -/
def natToDigitsAux : Nat → Nat → List Char
  | 0, _ => []
  | fuel + 1, n =>
    if n < 10 then [Nat.digitChar n]
    else natToDigitsAux fuel (n / 10) ++ [Nat.digitChar (n % 10)]

/-- Decimal digits of a natural number, most significant first (the digits
produced by Python's decimal formatting). -/
def natToDigits (n : Nat) : List Char := natToDigitsAux (n + 1) n

/-- Model of the Python format `f"{n:02d}"`: minimal decimal representation,
zero-padded on the left (after the sign) to total width 2. -/
def pyFmt02d (n : Int) : List Char :=
  if n < 0 then '-' :: natToDigits n.natAbs
  else if n.natAbs < 10 then '0' :: natToDigits n.natAbs
  else natToDigits n.natAbs

/-- Embedding of `time_to_seconds_to_timestamp` (main.py lines 128–132):
`minutes = int(seconds // 60)`, `remaining_seconds = int(seconds % 60)`,
rendered as `f"{minutes:02d}:{remaining_seconds:02d}"`.  Python's `//` is
floor division and `x % 60` equals `x - 60 * (x // 60)`, which lies in
`[0, 60)` so `int` truncation coincides with the floor. -/
def time_to_seconds_to_timestamp (seconds : ℚ) : String :=
  let minutes : Int := ⌊seconds / 60⌋
  let remaining_seconds : Int := ⌊seconds - 60 * (minutes : ℚ)⌋
  String.mk (pyFmt02d minutes ++ ':' :: pyFmt02d remaining_seconds)

/-- One line of `read_timestamps` (main.py lines 15–20) inside the loop:
the raw line is processed only if it contains a `-`; `none` as overall result
of `read_timestamps_loop` models the `ValueError` raised by the tuple
unpacking `start, end = line.strip().split('-')` when the split does not have
exactly two pieces, which escapes the loop to the outer `except`. -/
def read_timestamps_loop : List String → Option (List (String × String))
  | [] => some []
  | line :: rest =>
    if '-' ∈ line.data then
      match pySplit '-' (pyStrip line.data) with
      | [a, b] =>
        (read_timestamps_loop rest).map
          (fun ps => (String.mk (pyStrip a), String.mk (pyStrip b)) :: ps)
      | _ => none
    else read_timestamps_loop rest

/-- Embedding of `read_timestamps` (main.py lines 6–26) on the list of lines
returned by `readlines()`: the whole loop runs inside one `try`, so an
exception anywhere makes the function return `[]`.  I/O failures (also
handled by the same `except`) are outside this pure model. -/
def read_timestamps (lines : List String) : List (String × String) :=
  (read_timestamps_loop lines).getD []

/-- Embedding of the validator loop building `adjusted_timestamps`
(main.py lines 149–162): drop a pair if either endpoint fails to convert,
drop it if `start_sec >= video_duration`, clamp the end to
`time_to_seconds_to_timestamp video_duration` if `end_sec > video_duration`,
otherwise keep the pair unchanged. -/
def adjusted_timestamps (video_duration : ℚ) :
    List (String × String) → List (String × String)
  | [] => []
  | (s, e) :: rest =>
    match time_to_seconds s, time_to_seconds e with
    | some start_sec, some end_sec =>
      if video_duration ≤ (start_sec : ℚ) then adjusted_timestamps video_duration rest
      else if video_duration < (end_sec : ℚ) then
        (s, time_to_seconds_to_timestamp video_duration) ::
          adjusted_timestamps video_duration rest
      else (s, e) :: adjusted_timestamps video_duration rest
    | _, _ => adjusted_timestamps video_duration rest

/-- Embedding of `get_video_duration` (main.py lines 117–126): the external
probe is abstracted as an optional duration; `none` models `VideoFileClip`
raising, in which case the function returns `0`. -/
def get_video_duration (probe : Option ℚ) : ℚ :=
  match probe with
  | some d => d
  | none => 0

/-- Oracle for the external toolchain calls made by one iteration of
`extract_and_resize_clips` (main.py lines 52–115).  Fields, in program
order: whether `ffmpeg_extract_subclip` returns normally; the size of the
temp file it wrote; whether a (partial) temp file exists when it raised;
whether the first `VideoFileClip(temp_output_path)` (line 74) succeeds and
the duration it reports; whether the second `VideoFileClip` (line 88)
succeeds and the duration it reports; whether resize/crop/`write_videofile`
(lines 97–102) succeed. -/
structure ClipEnv where
  extract_ok : Bool
  extract_size : Nat
  extract_leaves_file : Bool
  probe_ok : Bool
  probe_duration : ℚ
  reopen_ok : Bool
  reopen_duration : ℚ
  encode_ok : Bool

/-- Filesystem state relevant to one clip index: whether `temp_clip_i.mp4`
exists (and its size) and whether `clip_i.mp4` was written. -/
structure ClipFS where
  temp_exists : Bool
  temp_size : Nat
  clip_exists : Bool

/-- Embedding of one iteration of the loop in `extract_and_resize_clips`
(main.py lines 52–115) as a state transformer on the clip-`i` filesystem
state.  Control flow, in order: conversion failure skips before any file is
touched (lines 58–60); a raise in the first `try` (lines 64–84) is caught
and skips with no cleanup; a zero-size temp file skips with no cleanup
(lines 70–72); a zero-duration probe removes the temp file (lines 75–79);
the second block (lines 86–115) always ends with `os.remove` — either at
line 94 (zero duration) or at lines 111–115 — so every path through it
deletes the temp file (the model assumes `os.remove` succeeds). -/
def extract_and_resize_clip (env : ClipEnv) (s e : String) (fs : ClipFS) : ClipFS :=
  match time_to_seconds s, time_to_seconds e with
  | some _, some _ =>
    if env.extract_ok then
      let fs1 : ClipFS := ⟨true, env.extract_size, fs.clip_exists⟩
      if env.extract_size = 0 then fs1
      else if env.probe_ok then
        if env.probe_duration = 0 then ⟨false, 0, fs.clip_exists⟩
        else if env.reopen_ok then
          if env.reopen_duration = 0 then ⟨false, 0, fs.clip_exists⟩
          else if env.encode_ok then ⟨false, 0, true⟩
          else ⟨false, 0, fs.clip_exists⟩
        else ⟨false, 0, fs.clip_exists⟩
      else fs1
    else ⟨env.extract_leaves_file, env.extract_size, fs.clip_exists⟩
  | _, _ => fs

/-- Embedding of the loop of `extract_and_resize_clips` over all validated
pairs: each index `i` gets its own temp/output files, starting from a fresh
state (no stale temp file), under its own oracle `env i`. -/
def extract_and_resize_clips (env : Nat → ClipEnv)
    (timestamps : List (String × String)) : List ClipFS :=
  timestamps.enum.map
    (fun p => extract_and_resize_clip (env p.1) p.2.1 p.2.2 ⟨false, 0, false⟩)

/-- The per-pair transformation a kept pair undergoes in the validator: the
end field is replaced by the clamped timestamp exactly when its seconds value
exceeds the duration; the start field is never changed.  Used to state that
the validator's output is a subsequence of the clamped input. -/
def clampPair (d : ℚ) (p : String × String) : String × String :=
  match time_to_seconds p.2 with
  | some end_sec => if d < (end_sec : ℚ) then (p.1, time_to_seconds_to_timestamp d) else p
  | none => p

/-- Per-line reader behaviour as the spec describes it (spec §4.1): a line
without `-` is skipped; a line with `-` contributes the pair of stripped
pieces.  `read_timestamps` refines this only when no line has two or more
`-` separators. -/
def readerSpecLine (line : String) : Option (String × String) :=
  if '-' ∈ line.data then
    match pySplit '-' (pyStrip line.data) with
    | [a, b] => some (String.mk (pyStrip a), String.mk (pyStrip b))
    | _ => none
  else none

/-! ### Facts about digits and the decimal printer -/

theorem digitVal_digitChar : ∀ d, d < 10 → digitVal (Nat.digitChar d) = d := by decide

theorem isDigitChar_digitChar : ∀ d, d < 10 → isDigitChar (Nat.digitChar d) = true := by
  decide

theorem natToDigitsAux_ne_nil (n fuel : Nat) (h : n < fuel) :
    natToDigitsAux fuel n ≠ [] := by
  cases fuel with
  | zero => omega
  | succ f =>
    simp only [natToDigitsAux]
    split
    · simp
    · simp

theorem mem_natToDigitsAux_digit :
    ∀ n fuel, n < fuel → ∀ c ∈ natToDigitsAux fuel n, isDigitChar c = true := by
  intro n
  induction n using Nat.strong_induction_on with
  | _ n ih =>
    intro fuel hf c hc
    cases fuel with
    | zero => omega
    | succ f =>
      simp only [natToDigitsAux] at hc
      by_cases h10 : n < 10
      · simp [h10] at hc
        subst hc
        exact isDigitChar_digitChar n h10
      · simp [h10] at hc
        rcases hc with hc | hc
        · exact ih (n / 10) (by omega) f (by omega) c hc
        · subst hc
          exact isDigitChar_digitChar (n % 10) (by omega)

theorem foldl_natToDigitsAux :
    ∀ n fuel, n < fuel → ∀ a : Nat,
      (natToDigitsAux fuel n).foldl pyStep a
        = a * 10 ^ (natToDigitsAux fuel n).length + n := by
  intro n
  induction n using Nat.strong_induction_on with
  | _ n ih =>
    intro fuel hf a
    cases fuel with
    | zero => omega
    | succ f =>
      simp only [natToDigitsAux]
      by_cases h10 : n < 10
      · simp [h10, pyStep, digitVal_digitChar n h10]
      · simp only [h10, if_false, List.foldl_append, List.foldl_cons, List.foldl_nil,
          List.length_append, List.length_cons, List.length_nil]
        rw [ih (n / 10) (by omega) f (by omega) a]
        have hdv : digitVal (Nat.digitChar (n % 10)) = n % 10 :=
          digitVal_digitChar (n % 10) (by omega)
        have hmod : n / 10 * 10 + n % 10 = n := by omega
        calc (a * 10 ^ (natToDigitsAux f (n / 10)).length + n / 10) * 10
              + digitVal (Nat.digitChar (n % 10))
            = a * (10 ^ (natToDigitsAux f (n / 10)).length * 10)
              + (n / 10 * 10 + n % 10) := by rw [hdv]; ring
          _ = a * 10 ^ ((natToDigitsAux f (n / 10)).length + 1) + n := by
              rw [hmod, pow_succ]

theorem natToDigits_ne_nil (n : Nat) : natToDigits n ≠ [] :=
  natToDigitsAux_ne_nil n (n + 1) (Nat.lt_succ_self n)

theorem mem_natToDigits_digit (n : Nat) : ∀ c ∈ natToDigits n, isDigitChar c = true :=
  mem_natToDigitsAux_digit n (n + 1) (Nat.lt_succ_self n)

theorem foldl_pyStep_natToDigits (n : Nat) (a : Nat) :
    (natToDigits n).foldl pyStep a = a * 10 ^ (natToDigits n).length + n :=
  foldl_natToDigitsAux n (n + 1) (Nat.lt_succ_self n) a

/-! ### Facts about the model of Python `int` -/

theorem pyDigitsAux_cons_digit (acc : Nat) (c : Char) (rest : List Char)
    (hc : isDigitChar c = true) :
    pyDigitsAux acc (c :: rest) = pyDigitsAux (pyStep acc c) rest := by
  cases rest with
  | nil => simp [pyDigitsAux, hc]
  | cons c2 r2 => simp [pyDigitsAux, hc]

theorem pyDigitsAux_digits :
    ∀ l : List Char, (∀ c ∈ l, isDigitChar c = true) →
      ∀ acc, pyDigitsAux acc l = some (l.foldl pyStep acc) := by
  intro l
  induction l with
  | nil => intro _ acc; rfl
  | cons c rest ih =>
    intro h acc
    have hc : isDigitChar c = true := h c (List.mem_cons_self _ _)
    rw [pyDigitsAux_cons_digit acc c rest hc, List.foldl_cons]
    exact ih (fun d hd => h d (List.mem_cons_of_mem _ hd)) (pyStep acc c)

theorem pyParseDigits_digits (l : List Char) (hne : l ≠ [])
    (h : ∀ c ∈ l, isDigitChar c = true) :
    pyParseDigits l = some (l.foldl pyStep 0) := by
  cases l with
  | nil => exact absurd rfl hne
  | cons c rest =>
    have hc := h c (List.mem_cons_self _ _)
    simp only [pyParseDigits, hc, if_true, List.foldl_cons]
    rw [pyDigitsAux_digits rest (fun d hd => h d (List.mem_cons_of_mem _ hd))]
    have : pyStep 0 c = digitVal c := by simp [pyStep]
    rw [this]

theorem isPySpace_of_digit (c : Char) (h : isDigitChar c = true) :
    isPySpace c = false := by
  have h48 : 48 ≤ c.toNat ∧ c.toNat ≤ 57 := by
    simpa [isDigitChar] using h
  cases hsp : isPySpace c
  · rfl
  · exfalso
    simp only [isPySpace, Bool.or_eq_true, beq_iff_eq] at hsp
    rcases hsp with ((((h1 | h1) | h1) | h1) | h1) | h1 <;>
      (subst h1; revert h48; decide)

theorem dropWhile_eq_self_of_false {p : Char → Bool} (l : List Char)
    (h : ∀ c ∈ l, p c = false) : l.dropWhile p = l := by
  cases l with
  | nil => rfl
  | cons c rest => simp [List.dropWhile_cons, h c (List.mem_cons_self _ _)]

theorem pyStrip_eq_self (l : List Char) (h : ∀ c ∈ l, isPySpace c = false) :
    pyStrip l = l := by
  unfold pyStrip
  rw [dropWhile_eq_self_of_false l h,
    dropWhile_eq_self_of_false l.reverse (fun c hc => h c (List.mem_reverse.mp hc)),
    List.reverse_reverse]

theorem pyInt_digits (l : List Char) (hne : l ≠ [])
    (h : ∀ c ∈ l, isDigitChar c = true) :
    pyInt l = some ((l.foldl pyStep 0 : Nat) : Int) := by
  have hs : pyStrip l = l :=
    pyStrip_eq_self l (fun c hc => isPySpace_of_digit c (h c hc))
  cases l with
  | nil => exact absurd rfl hne
  | cons c rest =>
    have hc := h c (List.mem_cons_self _ _)
    have hm : ¬ c = '-' := by intro e; subst e; revert hc; decide
    have hp : ¬ c = '+' := by intro e; subst e; revert hc; decide
    simp only [pyInt, hs, hm, if_false, hp]
    rw [pyParseDigits_digits _ (by simp) h]
    rfl

theorem pyInt_natToDigits (n : Nat) : pyInt (natToDigits n) = some (n : Int) := by
  rw [pyInt_digits _ (natToDigits_ne_nil n) (mem_natToDigits_digit n),
    foldl_pyStep_natToDigits n 0]
  simp

theorem pyInt_zero_pad (n : Nat) : pyInt ('0' :: natToDigits n) = some (n : Int) := by
  have hall : ∀ c ∈ '0' :: natToDigits n, isDigitChar c = true := by
    intro c hc
    rcases List.mem_cons.mp hc with h | h
    · subst h; decide
    · exact mem_natToDigits_digit n c h
  rw [pyInt_digits _ (by simp) hall, List.foldl_cons]
  have h0 : pyStep 0 '0' = 0 := by decide
  rw [h0, foldl_pyStep_natToDigits n 0]
  simp

/-! ### Facts about `pyFmt02d` on non-negative inputs -/

theorem pyFmt02d_natCast (k : Nat) :
    pyFmt02d (k : Int) = if k < 10 then '0' :: natToDigits k else natToDigits k := by
  unfold pyFmt02d
  rw [if_neg (by exact not_lt.mpr (Int.natCast_nonneg k)), Int.natAbs_ofNat]

theorem pyInt_pyFmt02d (k : Nat) : pyInt (pyFmt02d (k : Int)) = some (k : Int) := by
  rw [pyFmt02d_natCast]
  split
  · exact pyInt_zero_pad k
  · exact pyInt_natToDigits k

theorem pyFmt02d_natCast_digits (k : Nat) :
    ∀ c ∈ pyFmt02d (k : Int), isDigitChar c = true := by
  rw [pyFmt02d_natCast]
  split
  · intro c hc
    rcases List.mem_cons.mp hc with h | h
    · subst h; decide
    · exact mem_natToDigits_digit k c h
  · exact mem_natToDigits_digit k

/-! ### Facts about `pySplit` -/

theorem pySplit_ne_nil (sep : Char) : ∀ l, pySplit sep l ≠ [] := by
  intro l
  cases l with
  | nil => simp [pySplit]
  | cons c rest =>
    simp only [pySplit]
    split
    · simp
    · split
      · simp
      · simp

theorem pySplit_no_sep (sep : Char) :
    ∀ l : List Char, (∀ c ∈ l, c ≠ sep) → pySplit sep l = [l] := by
  intro l
  induction l with
  | nil => intro _; rfl
  | cons c rest ih =>
    intro h
    have hc : ¬ c = sep := h c (List.mem_cons_self _ _)
    simp only [pySplit, if_neg hc]
    rw [ih (fun d hd => h d (List.mem_cons_of_mem _ hd))]

theorem pySplit_append (sep : Char) (a b : List Char) (ha : ∀ c ∈ a, c ≠ sep) :
    pySplit sep (a ++ sep :: b) = a :: pySplit sep b := by
  induction a with
  | nil => simp [pySplit]
  | cons c a2 ih =>
    have hc : ¬ c = sep := ha c (List.mem_cons_self _ _)
    simp only [List.cons_append, pySplit, if_neg hc, List.append_eq]
    rw [ih (fun d hd => ha d (List.mem_cons_of_mem _ hd))]

theorem mem_of_mem_pySplit (sep : Char) :
    ∀ l p, p ∈ pySplit sep l → ∀ c ∈ p, c ∈ l := by
  intro l
  induction l with
  | nil =>
    intro p hp c hc
    simp [pySplit] at hp
    subst hp
    simp at hc
  | cons d rest ih =>
    intro p hp c hc
    by_cases hd : d = sep
    · rw [hd] at hp
      simp only [pySplit, if_pos rfl] at hp
      rcases List.mem_cons.mp hp with hp | hp
      · subst hp; simp at hc
      · exact List.mem_cons_of_mem _ (ih p hp c hc)
    · simp only [pySplit, if_neg hd] at hp
      cases hsp : pySplit sep rest with
      | nil => exact absurd hsp (pySplit_ne_nil sep rest)
      | cons q qs =>
        rw [hsp] at hp
        rcases List.mem_cons.mp hp with hp | hp
        · subst hp
          rcases List.mem_cons.mp hc with hc | hc
          · subst hc; exact List.mem_cons_self _ _
          · exact List.mem_cons_of_mem _
              (ih q (hsp ▸ List.mem_cons_self _ _) c hc)
        · exact List.mem_cons_of_mem _
            (ih p (hsp ▸ List.mem_cons_of_mem _ hp) c hc)

/-! ### Evaluating `time_to_seconds_to_timestamp` on integer inputs -/

theorem floor_ratCast_div_sixty (n : Nat) :
    ⌊(n : ℚ) / 60⌋ = ((n / 60 : Nat) : Int) := by
  have h60 : ((60 : ℕ) : ℚ) = (60 : ℚ) := by norm_num
  rw [← h60, Rat.floor_natCast_div_natCast n 60]
  exact_mod_cast rfl

theorem to_timestamp_natCast (n : Nat) :
    time_to_seconds_to_timestamp (n : ℚ)
      = String.mk (pyFmt02d ((n / 60 : Nat) : Int) ++ ':'
          :: pyFmt02d ((n % 60 : Nat) : Int)) := by
  simp only [time_to_seconds_to_timestamp]
  rw [floor_ratCast_div_sixty]
  have hrem : (n : ℚ) - 60 * ((((n / 60 : Nat) : Int)) : ℚ) = ((n % 60 : Nat) : ℚ) := by
    have hdm : 60 * (n / 60) + n % 60 = n := Nat.div_add_mod n 60
    have hq : ((60 * (n / 60) + n % 60 : ℕ) : ℚ) = ((n : ℕ) : ℚ) := by rw [hdm]
    push_cast at hq
    rw [Int.cast_natCast]
    linarith
  rw [hrem, Int.floor_natCast]

theorem digit_ne_colon (c : Char) (h : isDigitChar c = true) : c ≠ ':' := by
  intro e
  subst e
  revert h
  decide

theorem to_seconds_of_fmt_pair (m r : Nat) :
    time_to_seconds (String.mk (pyFmt02d (m : Int) ++ ':' :: pyFmt02d (r : Int)))
      = some ((m : Int) * 60 + (r : Int)) := by
  have hsplit : pySplit ':' (pyFmt02d (m : Int) ++ ':' :: pyFmt02d (r : Int))
      = [pyFmt02d (m : Int), pyFmt02d (r : Int)] := by
    rw [pySplit_append ':' _ _
        (fun c hc => digit_ne_colon c (pyFmt02d_natCast_digits m c hc)),
      pySplit_no_sep ':' _
        (fun c hc => digit_ne_colon c (pyFmt02d_natCast_digits r c hc))]
  have hdata : (String.mk (pyFmt02d (m : Int) ++ ':' :: pyFmt02d (r : Int))).data
      = pyFmt02d (m : Int) ++ ':' :: pyFmt02d (r : Int) := rfl
  simp only [time_to_seconds, hdata, hsplit]
  simp [pyMapInt, pyInt_pyFmt02d]

/-! ### Reduction lemmas for the validator loop -/

theorem adjusted_cons_invalid (d : ℚ) (s e : String) (rest : List (String × String))
    (h : time_to_seconds s = none ∨ time_to_seconds e = none) :
    adjusted_timestamps d ((s, e) :: rest) = adjusted_timestamps d rest := by
  cases hs : time_to_seconds s with
  | none =>
    cases he : time_to_seconds e with
    | none => simp [adjusted_timestamps, hs, he]
    | some w => simp [adjusted_timestamps, hs, he]
  | some z =>
    cases he : time_to_seconds e with
    | none => simp [adjusted_timestamps, hs, he]
    | some w =>
      rcases h with h | h
      · rw [hs] at h; exact absurd h (by simp)
      · rw [he] at h; exact absurd h (by simp)

theorem adjusted_cons_drop (d : ℚ) (s e : String) (rest : List (String × String))
    (ss es : Int) (hs : time_to_seconds s = some ss) (he : time_to_seconds e = some es)
    (hd : d ≤ (ss : ℚ)) :
    adjusted_timestamps d ((s, e) :: rest) = adjusted_timestamps d rest := by
  simp [adjusted_timestamps, hs, he, hd]

theorem adjusted_cons_clamp (d : ℚ) (s e : String) (rest : List (String × String))
    (ss es : Int) (hs : time_to_seconds s = some ss) (he : time_to_seconds e = some es)
    (hd1 : (ss : ℚ) < d) (hd2 : d < (es : ℚ)) :
    adjusted_timestamps d ((s, e) :: rest)
      = (s, time_to_seconds_to_timestamp d) :: adjusted_timestamps d rest := by
  simp [adjusted_timestamps, hs, he, not_le.mpr hd1, hd2]

theorem adjusted_cons_keep (d : ℚ) (s e : String) (rest : List (String × String))
    (ss es : Int) (hs : time_to_seconds s = some ss) (he : time_to_seconds e = some es)
    (hd1 : (ss : ℚ) < d) (hd2 : (es : ℚ) ≤ d) :
    adjusted_timestamps d ((s, e) :: rest) = (s, e) :: adjusted_timestamps d rest := by
  simp [adjusted_timestamps, hs, he, not_le.mpr hd1, not_lt.mpr hd2]

theorem clampPair_fst (d : ℚ) (p : String × String) :
    (clampPair d p).fst = p.fst := by
  cases h : time_to_seconds p.2 with
  | none => simp [clampPair, h]
  | some es =>
    simp only [clampPair, h]
    split
    · rfl
    · rfl

theorem clampPair_of_clamped (d : ℚ) (s e : String) (es : Int)
    (he : time_to_seconds e = some es) (hd : d < (es : ℚ)) :
    clampPair d (s, e) = (s, time_to_seconds_to_timestamp d) := by
  simp [clampPair, he, hd]

theorem clampPair_of_kept (d : ℚ) (s e : String) (es : Int)
    (he : time_to_seconds e = some es) (hd : ¬ d < (es : ℚ)) :
    clampPair d (s, e) = (s, e) := by
  simp [clampPair, he, hd]

/-! ### Reduction lemmas for the reader loop -/

theorem read_loop_cons_skip (line : String) (rest : List String)
    (h : '-' ∉ line.data) :
    read_timestamps_loop (line :: rest) = read_timestamps_loop rest := by
  simp [read_timestamps_loop, h]

theorem read_loop_good (lines : List String)
    (h : ∀ line ∈ lines, '-' ∈ line.data →
      (pySplit '-' (pyStrip line.data)).length = 2) :
    read_timestamps_loop lines = some (lines.filterMap readerSpecLine) := by
  induction lines with
  | nil => rfl
  | cons line rest ih =>
    by_cases hdash : '-' ∈ line.data
    · have hlen := h line (List.mem_cons_self _ _) hdash
      cases hsp : pySplit '-' (pyStrip line.data) with
      | nil => rw [hsp] at hlen; simp at hlen
      | cons a t =>
        cases t with
        | nil => rw [hsp] at hlen; simp at hlen
        | cons b t2 =>
          cases t2 with
          | nil =>
            simp only [read_timestamps_loop, if_pos hdash, hsp]
            rw [ih (fun l hl hd => h l (List.mem_cons_of_mem _ hl) hd)]
            simp [readerSpecLine, hdash, hsp, List.filterMap_cons]
          | cons c t3 => rw [hsp] at hlen; simp at hlen
    · simp only [read_timestamps_loop, if_neg hdash]
      rw [ih (fun l hl hd => h l (List.mem_cons_of_mem _ hl) hd)]
      simp [readerSpecLine, hdash, List.filterMap_cons]

/-! ### Non-negativity of parsed values on sign-free input -/

theorem mem_of_mem_dropWhile {p : Char → Bool} :
    ∀ l : List Char, ∀ c ∈ l.dropWhile p, c ∈ l := by
  intro l
  induction l with
  | nil => simp
  | cons a t ih =>
    intro c hc
    rw [List.dropWhile_cons] at hc
    split at hc
    · exact List.mem_cons_of_mem _ (ih c hc)
    · exact hc

theorem mem_of_mem_pyStrip : ∀ l : List Char, ∀ c ∈ pyStrip l, c ∈ l := by
  intro l c hc
  unfold pyStrip at hc
  rw [List.mem_reverse] at hc
  have h1 := mem_of_mem_dropWhile _ _ hc
  rw [List.mem_reverse] at h1
  exact mem_of_mem_dropWhile _ _ h1

theorem pyInt_nonneg (l : List Char) (hnd : '-' ∉ l) (z : Int)
    (h : pyInt l = some z) : 0 ≤ z := by
  cases hst : pyStrip l with
  | nil => simp only [pyInt, hst] at h; exact absurd h (by simp)
  | cons c rest =>
    simp only [pyInt, hst] at h
    have hcmem : c ∈ l :=
      mem_of_mem_pyStrip l c (by rw [hst]; exact List.mem_cons_self _ _)
    have hc : ¬ c = '-' := fun e => hnd (e ▸ hcmem)
    rw [if_neg hc] at h
    by_cases hp : c = '+'
    · rw [if_pos hp] at h
      rcases Option.map_eq_some'.mp h with ⟨n, _, hn⟩
      exact hn ▸ Int.natCast_nonneg n
    · rw [if_neg hp] at h
      rcases Option.map_eq_some'.mp h with ⟨n, _, hn⟩
      exact hn ▸ Int.natCast_nonneg n

theorem pyMapInt_nonneg :
    ∀ ps vs, (∀ p ∈ ps, '-' ∉ p) → pyMapInt ps = some vs → ∀ v ∈ vs, 0 ≤ v := by
  intro ps
  induction ps with
  | nil =>
    intro vs _ h v hv
    simp [pyMapInt] at h
    subst h
    simp at hv
  | cons p ps2 ih =>
    intro vs hnd h v hv
    unfold pyMapInt at h
    cases hp : pyInt p with
    | none => rw [hp] at h; simp at h
    | some w =>
      cases hps : pyMapInt ps2 with
      | none => rw [hp, hps] at h; simp at h
      | some ws =>
        rw [hp, hps] at h
        simp only [Option.some.injEq] at h
        subst h
        rcases List.mem_cons.mp hv with hv | hv
        · rw [hv]
          exact pyInt_nonneg p (hnd p (List.mem_cons_self _ _)) w hp
        · exact ih ws (fun q hq => hnd q (List.mem_cons_of_mem _ hq)) hps v hv

theorem time_to_seconds_nonneg (ts : String) (hnd : '-' ∉ ts.data) (z : Int)
    (h : time_to_seconds ts = some z) : 0 ≤ z := by
  unfold time_to_seconds at h
  cases hmm : pyMapInt (pySplit ':' ts.data) with
  | none => rw [hmm] at h; simp at h
  | some parts =>
    rw [hmm] at h
    have hpartsnd : ∀ p ∈ pySplit ':' ts.data, '-' ∉ p := by
      intro p hp hdash
      exact hnd (mem_of_mem_pySplit ':' ts.data p hp '-' hdash)
    have hnn := pyMapInt_nonneg _ parts hpartsnd hmm
    rcases parts with _ | ⟨a, _ | ⟨b, _ | ⟨c, _ | ⟨d4, rest4⟩⟩⟩⟩
    · simp at h
    · simp at h
    · simp only [Option.some.injEq] at h
      have ha := hnn a (by simp)
      have hb := hnn b (by simp)
      omega
    · simp only [Option.some.injEq] at h
      have ha := hnn a (by simp)
      have hb := hnn b (by simp)
      have hc := hnn c (by simp)
      omega
    · simp at h

/-! ### Concrete conversions used by the claims -/

theorem tt_125 : time_to_seconds_to_timestamp 125 = "02:05" := by
  have h : (125 : ℚ) = ((125 : ℕ) : ℚ) := by norm_num
  rw [h, to_timestamp_natCast]
  decide

theorem tt_3725 : time_to_seconds_to_timestamp 3725 = "62:05" := by
  have h : (3725 : ℚ) = ((3725 : ℕ) : ℚ) := by norm_num
  rw [h, to_timestamp_natCast]
  decide

theorem tt_100 : time_to_seconds_to_timestamp 100 = "01:40" := by
  have h : (100 : ℚ) = ((100 : ℕ) : ℚ) := by norm_num
  rw [h, to_timestamp_natCast]
  decide

theorem validator_example :
    adjusted_timestamps 100 [("00:50", "01:50"), ("02:00", "02:10")]
      = [("00:50", "01:40")] := by
  rw [adjusted_cons_clamp 100 "00:50" "01:50" _ 50 110 (by decide) (by decide)
      (by decide) (by decide),
    adjusted_cons_drop 100 "02:00" "02:10" _ 120 130 (by decide) (by decide) (by decide),
    tt_100]
  rfl

/-! ### The validator output as a subsequence of the clamped input -/

theorem adjusted_sublist_clamped (d : ℚ) (ts : List (String × String)) :
    (adjusted_timestamps d ts).Sublist (ts.map (clampPair d)) := by
  induction ts with
  | nil => simp [adjusted_timestamps]
  | cons p rest ih =>
    obtain ⟨s, e⟩ := p
    cases hs : time_to_seconds s with
    | none =>
      rw [adjusted_cons_invalid d s e rest (Or.inl hs)]
      exact List.Sublist.cons _ ih
    | some ss =>
      cases he : time_to_seconds e with
      | none =>
        rw [adjusted_cons_invalid d s e rest (Or.inr he)]
        exact List.Sublist.cons _ ih
      | some es =>
        by_cases h1 : d ≤ (ss : ℚ)
        · rw [adjusted_cons_drop d s e rest ss es hs he h1]
          exact List.Sublist.cons _ ih
        · by_cases h2 : d < (es : ℚ)
          · rw [adjusted_cons_clamp d s e rest ss es hs he (not_le.mp h1) h2,
              List.map_cons, clampPair_of_clamped d s e es he h2]
            exact List.Sublist.cons₂ _ ih
          · rw [adjusted_cons_keep d s e rest ss es hs he (not_le.mp h1) (not_lt.mp h2),
              List.map_cons, clampPair_of_kept d s e es he h2]
            exact List.Sublist.cons₂ _ ih

/-! ### All pairs with non-negative start are dropped at duration zero -/

theorem adjusted_nil_of_nonneg (ts : List (String × String))
    (h : ∀ p ∈ ts, ∀ z : Int, time_to_seconds p.1 = some z → 0 ≤ z) :
    adjusted_timestamps 0 ts = [] := by
  induction ts with
  | nil => rfl
  | cons p rest ih =>
    obtain ⟨s, e⟩ := p
    have hrest := ih (fun q hq => h q (List.mem_cons_of_mem _ hq))
    cases hs : time_to_seconds s with
    | none =>
      rw [adjusted_cons_invalid 0 s e rest (Or.inl hs)]
      exact hrest
    | some ss =>
      have hss : (0 : ℚ) ≤ (ss : ℚ) := by
        exact_mod_cast h (s, e) (List.mem_cons_self _ _) ss hs
      cases he : time_to_seconds e with
      | none =>
        rw [adjusted_cons_invalid 0 s e rest (Or.inr he)]
        exact hrest
      | some es =>
        rw [adjusted_cons_drop 0 s e rest ss es hs he hss]
        exact hrest

/-! ### Claim theorems -/

/-- C1 counterexample: the claim states `to_timestamp(3725) = "02:05"` (minutes
taken modulo 60, hours dropped), but the code computes `minutes = 3725 // 60 =
62` without reducing modulo 60, so the result is `"62:05"`, not `"02:05"`. -/
theorem to_timestamp_hours_counterexample :
    time_to_seconds_to_timestamp 3725 ≠ "02:05" := by
  rw [tt_3725]
  decide

/-- C1 (amended): `to_timestamp(125) = "02:05"`, and `to_timestamp(3725) =
"62:05"`: the minutes field carries the full quotient `seconds // 60`
(possibly 60 or more) — the hours are folded into the minutes, not dropped,
and nothing is taken modulo 60. -/
theorem to_timestamp_examples_amended :
    time_to_seconds_to_timestamp 125 = "02:05"
      ∧ time_to_seconds_to_timestamp 3725 = "62:05" :=
  ⟨tt_125, tt_3725⟩

/-- C2: the validator drops a pair whose endpoints fail conversion, drops a
pair with `start_sec >= duration`, clamps the end field to
`to_timestamp(duration)` when `end_sec > duration`, and keeps the pair
unchanged otherwise; on duration `100` and input
`[("00:50","01:50"), ("02:00","02:10")]` the output is exactly
`[("00:50","01:40")]`. -/
theorem validator_rules_and_example :
    (∀ (d : ℚ) (s e : String) (rest : List (String × String)),
        time_to_seconds s = none ∨ time_to_seconds e = none →
        adjusted_timestamps d ((s, e) :: rest) = adjusted_timestamps d rest)
  ∧ (∀ (d : ℚ) (s e : String) (rest : List (String × String)) (ss es : Int),
        time_to_seconds s = some ss → time_to_seconds e = some es →
        (ss : ℚ) ≥ d →
        adjusted_timestamps d ((s, e) :: rest) = adjusted_timestamps d rest)
  ∧ (∀ (d : ℚ) (s e : String) (rest : List (String × String)) (ss es : Int),
        time_to_seconds s = some ss → time_to_seconds e = some es →
        ¬ (ss : ℚ) ≥ d → (es : ℚ) > d →
        adjusted_timestamps d ((s, e) :: rest)
          = (s, time_to_seconds_to_timestamp d) :: adjusted_timestamps d rest)
  ∧ (∀ (d : ℚ) (s e : String) (rest : List (String × String)) (ss es : Int),
        time_to_seconds s = some ss → time_to_seconds e = some es →
        ¬ (ss : ℚ) ≥ d → ¬ (es : ℚ) > d →
        adjusted_timestamps d ((s, e) :: rest) = (s, e) :: adjusted_timestamps d rest)
  ∧ adjusted_timestamps 100 [("00:50", "01:50"), ("02:00", "02:10")]
      = [("00:50", "01:40")] := by
  refine ⟨?_, ?_, ?_, ?_, validator_example⟩
  · intro d s e rest h
    exact adjusted_cons_invalid d s e rest h
  · intro d s e rest ss es hs he hge
    exact adjusted_cons_drop d s e rest ss es hs he hge
  · intro d s e rest ss es hs he hlt hgt
    exact adjusted_cons_clamp d s e rest ss es hs he (not_le.mp hlt) hgt
  · intro d s e rest ss es hs he hlt hle
    exact adjusted_cons_keep d s e rest ss es hs he (not_le.mp hlt) (not_lt.mp hle)

/-- Witness for C2: the second rule applied at duration `100` to the pair
`("02:00","02:10")`, whose start converts to `120 ≥ 100`. -/
theorem validator_rules_and_example_witness :
    adjusted_timestamps 100 [("02:00", "02:10")] = adjusted_timestamps 100 [] :=
  validator_rules_and_example.2.1 100 "02:00" "02:10" [] 120 130 (by decide) (by decide)
    (by decide)

/-- C3: for `0 ≤ m < 60` and `0 ≤ s < 60`, converting the zero-padded string
`"MM:SS"` with `to_seconds` and mapping the result through `to_timestamp`
returns the same zero-padded `"MM:SS"` string. -/
theorem mmss_roundtrip (m s : Nat) (hm : m < 60) (hs : s < 60) :
    (time_to_seconds (String.mk (pyFmt02d (m : Int) ++ ':' :: pyFmt02d (s : Int)))).map
        (fun z : Int => time_to_seconds_to_timestamp (z : ℚ))
      = some (String.mk (pyFmt02d (m : Int) ++ ':' :: pyFmt02d (s : Int))) := by
  rw [to_seconds_of_fmt_pair m s]
  simp only [Option.map_some']
  have hcast : (((m : Int) * 60 + (s : Int) : Int) : ℚ) = ((m * 60 + s : ℕ) : ℚ) := by
    push_cast
    ring
  rw [hcast, to_timestamp_natCast]
  have h1 : (m * 60 + s) / 60 = m := by omega
  have h2 : (m * 60 + s) % 60 = s := by omega
  rw [h1, h2]

/-- Witness for C3 at `m = 2`, `s = 5` (the string `"02:05"`). -/
theorem mmss_roundtrip_witness :
    (time_to_seconds (String.mk (pyFmt02d ((2 : ℕ) : Int) ++ ':'
        :: pyFmt02d ((5 : ℕ) : Int)))).map
        (fun z : Int => time_to_seconds_to_timestamp (z : ℚ))
      = some (String.mk (pyFmt02d ((2 : ℕ) : Int) ++ ':' :: pyFmt02d ((5 : ℕ) : Int))) :=
  mmss_roundtrip 2 5 (by omega) (by omega)

/-- C4: a timestamp splitting into exactly two integer components gives
`minutes*60 + seconds`, one splitting into exactly three gives
`hours*3600 + minutes*60 + seconds`; in particular
`to_seconds("1:30:00") = 5400` and `to_seconds("02:05") = 125`. -/
theorem to_seconds_components :
    (∀ (ts : String) (a b : List Char) (m s : Int),
        pySplit ':' ts.data = [a, b] → pyInt a = some m → pyInt b = some s →
        time_to_seconds ts = some (m * 60 + s))
  ∧ (∀ (ts : String) (a b c : List Char) (h m s : Int),
        pySplit ':' ts.data = [a, b, c] →
        pyInt a = some h → pyInt b = some m → pyInt c = some s →
        time_to_seconds ts = some (h * 3600 + m * 60 + s))
  ∧ time_to_seconds "1:30:00" = some 5400
  ∧ time_to_seconds "02:05" = some 125 := by
  refine ⟨?_, ?_, by decide, by decide⟩
  · intro ts a b m s hsplit ha hb
    simp only [time_to_seconds, hsplit]
    simp [pyMapInt, ha, hb]
  · intro ts a b c h m s hsplit ha hb hc
    simp only [time_to_seconds, hsplit]
    simp [pyMapInt, ha, hb, hc]

/-- Witness for C4: `"02:05"` splits into the two components `"02"` and
`"05"`, which parse to `2` and `5`. -/
theorem to_seconds_components_witness :
    time_to_seconds "02:05" = some ((2 : Int) * 60 + (5 : Int)) :=
  to_seconds_components.1 "02:05" ['0', '2'] ['0', '5'] 2 5 (by decide) (by decide)
    (by decide)

/-- C5 counterexample: the claim states a malformed line is skipped while
pairs from other lines are still returned, but on the file
`["00:10-00:20", "a-b-c"]` the line with two `-` separators raises during
tuple unpacking, the exception is caught by the outer `except`, and the
reader returns `[]`, discarding the pair from the well-formed first line. -/
theorem reader_multidash_counterexample :
    read_timestamps ["00:10-00:20", "a-b-c"] = []
      ∧ read_timestamps ["00:10-00:20", "a-b-c"] ≠ [("00:10", "00:20")] := by
  constructor
  · decide
  · decide

/-- C5 (amended): a line without `-` is skipped and never aborts the read,
and when every line containing `-` splits into exactly two pieces the reader
returns, in file order, the stripped pair from each such line; however a line
whose stripped text contains two or more `-` separators raises during
unpacking, aborting the whole read and discarding the pairs from all other
lines. -/
theorem reader_amended :
    (∀ (line : String) (rest : List String), '-' ∉ line.data →
        read_timestamps (line :: rest) = read_timestamps rest)
  ∧ (∀ lines : List String,
      (∀ line ∈ lines, '-' ∈ line.data →
        (pySplit '-' (pyStrip line.data)).length = 2) →
      read_timestamps lines = lines.filterMap readerSpecLine) := by
  constructor
  · intro line rest h
    unfold read_timestamps
    rw [read_loop_cons_skip line rest h]
  · intro lines h
    unfold read_timestamps
    rw [read_loop_good lines h]
    rfl

/-- Witness for C5 (amended): a file whose dashed lines all have exactly one
`-`; the plain-word line is skipped and the two pairs are returned. -/
theorem reader_amended_witness :
    read_timestamps ["00:10-00:20", "garbage", "00:30-00:40"]
      = ["00:10-00:20", "garbage", "00:30-00:40"].filterMap readerSpecLine :=
  reader_amended.2 ["00:10-00:20", "garbage", "00:30-00:40"] (by decide)

/-- C6: the validator output is an order-preserving subsequence of its
input: its length is at most the input length, the sequence of start fields
is a sublist of the input's start fields, and the output is a sublist of the
input with each pair's end optionally replaced by the clamp (`clampPair`) —
the start field is never modified. -/
theorem validator_subsequence (d : ℚ) (ts : List (String × String)) :
    (adjusted_timestamps d ts).length ≤ ts.length
  ∧ ((adjusted_timestamps d ts).map Prod.fst).Sublist (ts.map Prod.fst)
  ∧ (adjusted_timestamps d ts).Sublist (ts.map (clampPair d)) := by
  have main := adjusted_sublist_clamped d ts
  refine ⟨?_, ?_, main⟩
  · have hlen := main.length_le
    simpa using hlen
  · have hmap := main.map Prod.fst
    have hfst : (ts.map (clampPair d)).map Prod.fst = ts.map Prod.fst := by
      rw [List.map_map]
      exact List.map_congr_left (fun p _ => clampPair_fst d p)
    rwa [hfst] at hmap

/-- C7 counterexample: the claim states every non-absent result of
`to_seconds` is non-negative, but Python `int` accepts a sign, so
`to_seconds("-1:30") = -60 + 30 = -30 < 0`. -/
theorem to_seconds_negative_counterexample :
    time_to_seconds "-1:30" = some (-30) ∧ ¬ (0 ≤ (-30 : Int)) := by
  constructor
  · decide
  · decide

/-- C7 (amended): every non-absent result of `to_seconds` on a timestamp
containing no `-` character (in particular on the digit-only timestamps the
pipeline is designed for) is non-negative. -/
theorem to_seconds_nonneg_amended (ts : String) (hnd : '-' ∉ ts.data) (z : Int)
    (h : time_to_seconds ts = some z) : 0 ≤ z :=
  time_to_seconds_nonneg ts hnd z h

/-- Witness for C7 (amended) at the dash-free timestamp `"02:05"`. -/
theorem to_seconds_nonneg_amended_witness : (0 : Int) ≤ 125 :=
  to_seconds_nonneg_amended "02:05" (by decide) 125 (by decide)

/-- C8 counterexample: the claim states the temp file is gone after every
exit path including the zero-size result, but on the zero-size path the code
executes `continue` without `os.remove`, so the zero-byte
`temp_clip_i.mp4` still exists when the iteration completes. -/
theorem temp_file_zero_size_counterexample :
    (extract_and_resize_clip ⟨true, 0, false, true, 1, true, 1, true⟩ "00:00" "00:10"
        ⟨false, 0, false⟩).temp_exists = true := by
  decide

/-- C8 (amended): whenever the extraction succeeds with a non-empty temp file
and the validity probe opens it, the temp file no longer exists when the
iteration completes — this covers the success, zero-duration,
reopen-failure, and resize/encode-failure exit paths; on the zero-size path
the zero-byte file is left on disk, and a failed extraction or a failed
probe open may also leave the temp file behind. -/
theorem temp_file_removed_amended (env : ClipEnv) (s e : String) (fs : ClipFS)
    (a b : Int) (hs : time_to_seconds s = some a) (he : time_to_seconds e = some b)
    (hx : env.extract_ok = true) (hsz : env.extract_size ≠ 0)
    (hp : env.probe_ok = true) :
    (extract_and_resize_clip env s e fs).temp_exists = false := by
  by_cases h1 : env.probe_duration = 0 <;> by_cases h2 : env.reopen_ok = true <;>
    by_cases h3 : env.reopen_duration = 0 <;> by_cases h4 : env.encode_ok = true <;>
      simp [extract_and_resize_clip, hs, he, hx, hsz, hp, h1, h2, h3, h4]

/-- Witness for C8 (amended): a successful extraction of a 5-byte clip whose
probe reports duration 0 — the temp file is deleted. -/
theorem temp_file_removed_amended_witness :
    (extract_and_resize_clip ⟨true, 5, false, true, 0, true, 1, true⟩ "00:00" "00:10"
        ⟨false, 0, false⟩).temp_exists = false :=
  temp_file_removed_amended ⟨true, 5, false, true, 0, true, 1, true⟩ "00:00" "00:10"
    ⟨false, 0, false⟩ 0 10 (by decide) (by decide) rfl (by decide) rfl

/-- C9: for every non-negative integer `n`,
`to_seconds(to_timestamp(n)) = n`: `to_timestamp` emits the full minute
count (possibly 60 or more) and `to_seconds` accepts a two-component
timestamp with any minute value, so this direction is an exact inverse even
for `n ≥ 3600`. -/
theorem seconds_roundtrip (n : Nat) :
    time_to_seconds (time_to_seconds_to_timestamp (n : ℚ)) = some (n : Int) := by
  rw [to_timestamp_natCast, to_seconds_of_fmt_pair]
  congr 1
  omega

/-- C10: a failed duration probe makes `get_video_duration` return `0`, and
with duration `0` the validator drops every pair whose start converts to a
non-negative value, so when all pairs are of that kind (or fail conversion)
the validated sequence is empty and the extractor produces no clips. -/
theorem duration_zero_drops_all :
    get_video_duration none = 0
  ∧ (∀ (s e : String) (rest : List (String × String)) (ss : Int),
      time_to_seconds s = some ss → 0 ≤ ss →
      adjusted_timestamps 0 ((s, e) :: rest) = adjusted_timestamps 0 rest)
  ∧ (∀ ts : List (String × String),
      (∀ p ∈ ts, ∀ z : Int, time_to_seconds p.1 = some z → 0 ≤ z) →
      adjusted_timestamps 0 ts = [])
  ∧ (∀ (env : Nat → ClipEnv) (ts : List (String × String)),
      (∀ p ∈ ts, ∀ z : Int, time_to_seconds p.1 = some z → 0 ≤ z) →
      extract_and_resize_clips env (adjusted_timestamps 0 ts) = []) := by
  refine ⟨rfl, ?_, ?_, ?_⟩
  · intro s e rest ss hs hss
    cases he : time_to_seconds e with
    | none => exact adjusted_cons_invalid 0 s e rest (Or.inr he)
    | some es =>
      exact adjusted_cons_drop 0 s e rest ss es hs he (by exact_mod_cast hss)
  · exact adjusted_nil_of_nonneg
  · intro env ts h
    rw [adjusted_nil_of_nonneg ts h]
    rfl

/-- Witness for C10: with probed duration `0`, the single pair
`("00:10","00:20")` (start converts to `10 ≥ 0`) is dropped and the
validated sequence is empty. -/
theorem duration_zero_drops_all_witness :
    adjusted_timestamps 0 [("00:10", "00:20")] = [] :=
  duration_zero_drops_all.2.2.1 [("00:10", "00:20")]
    (by
      intro p hp z hz
      simp only [List.mem_singleton] at hp
      subst hp
      have h10 : time_to_seconds (("00:10", "00:20") : String × String).1 = some 10 := by
        decide
      rw [h10] at hz
      simp only [Option.some.injEq] at hz
      omega)
